import Mathlib

/-!
Shallow embedding of the core of the `instagram-post-scraper` service
(NestJS + Playwright) and proofs about its account ledger, scrape
orchestrator, extraction pipeline, response observer, progressive scroll
loop and browser session pool.

Conventions of the embedding:
* JavaScript objects used as string-keyed maps (`Record<string, T>`)
  become association lists `List (String × T)` with `lookupD` modelling
  `m[k] || default` and `setK` modelling `m[k] = v`.
* JavaScript truthiness on strings/numbers is modelled explicitly
  (`jsOrStr`, `jsTruthyNat`): the empty string and `0` are falsy.
* `async` methods that can `throw` return `Except String _`.
* File persistence (`writeRotationState`) is modelled by also returning
  the list of states handed to the writer, so "persisted after every
  mutation" is provable.
-/

namespace IGScraper

/-- Membership of one character list inside another, written as the
JavaScript `String.prototype.includes` over the code points. -/
def strIncludes (hay pat : String) : Bool :=
  decide (pat.toList <:+: hay.toList)

/-- JavaScript `hay.toLowerCase().includes(pat)` for an all-ASCII
lowercase pattern `pat`, computed over the code points. -/
def lowerIncludes (hay pat : String) : Bool :=
  decide (pat.toList <:+: hay.toList.map Char.toLower)

/-- JavaScript `s || d` for an optional string: `undefined` and the empty
string are falsy. -/
def jsOrStr (s? : Option String) (d : String) : String :=
  match s? with
  | some s => if s = "" then d else s
  | none => d

/-- JavaScript truthiness of an optional number (`undefined` and `0` are
falsy). -/
def jsTruthyNat (n? : Option Nat) : Bool :=
  match n? with
  | some n => n ≠ 0
  | none => false

/-- Lookup in a string-keyed association list with a default, modelling
the JavaScript pattern `m[k] || d`. -/
def lookupD {α : Type} : List (String × α) → String → α → α
  | [], _, d => d
  | p :: rest, k, d => if p.1 = k then p.2 else lookupD rest k d

/-- Assignment `m[k] = v` on a string-keyed association list: replaces the
first binding of `k`, or appends a new one. -/
def setK {α : Type} : List (String × α) → String → α → List (String × α)
  | [], k, v => [(k, v)]
  | p :: rest, k, v => if p.1 = k then (k, v) :: rest else p :: setK rest k v

/-! ## Account ledger (`AccountsService`, src accounts.service) -/

/-- Configured Instagram bot account (`IgAccount` from the configuration). -/
structure IgAccount where
  username : String
  password : String
deriving DecidableEq, Repr

/-- Per-account health record (`AccountStatus` in accounts.service). -/
structure AccountStatus where
  isActive : Bool
  lastSuccess : Option Nat
  lastFailure : Option Nat
  failureReason : Option String
  consecutiveFailures : Nat
deriving DecidableEq, Repr

/-- The default health record used when `state.accountStatus[username]`
is absent. -/
def defaultStatus : AccountStatus :=
  { isActive := true, lastSuccess := none, lastFailure := none,
    failureReason := none, consecutiveFailures := 0 }

/-- Persisted rotation state (`RotationState` in accounts.service). -/
structure RotationState where
  lastUsedIndex : Int
  lastUsedTimestamps : List (String × Nat)
  usageCount : List (String × Nat)
  accountStatus : List (String × AccountStatus)
deriving DecidableEq, Repr

/-- The defaults used by `readRotationState` when no file exists. -/
def initialRotationState : RotationState :=
  { lastUsedIndex := -1, lastUsedTimestamps := [], usageCount := [],
    accountStatus := [] }

/-- The critical-error test of `updateAccountStatus`:
`toLowerCase().includes(p)` on the error message (empty when absent),
for the four patterns
`challenge`, `inhabilitada`, `suspended`, `banned` that appear in the
source. -/
def isCriticalError (error? : Option String) : Bool :=
  let e := jsOrStr error? ""
  lowerIncludes e "challenge" || lowerIncludes e "inhabilitada" ||
    lowerIncludes e "suspended" || lowerIncludes e "banned"

/-- The critical-error patterns as the specification words them:
challenge, suspended, banned, or disabled.  Used only to compare the
specification against the source (`isCriticalError`). -/
def specCriticalPattern (error? : Option String) : Bool :=
  let e := jsOrStr error? ""
  lowerIncludes e "challenge" || lowerIncludes e "suspended" ||
    lowerIncludes e "banned" || lowerIncludes e "disabled"

/-- The health-record transition performed by
`AccountsService.updateAccountStatus` on the current record (the body of
its `if (success) ... else ...`). -/
def nextStatus (currentStatus : AccountStatus) (success : Bool)
    (error? : Option String) (now : Nat) : AccountStatus :=
  if success then
    { currentStatus with
        isActive := true, lastSuccess := some now,
        consecutiveFailures := 0, failureReason := none }
  else
    let s1 :=
      { currentStatus with
          lastFailure := some now,
          failureReason := some (jsOrStr error? "Unknown error"),
          consecutiveFailures := currentStatus.consecutiveFailures + 1 }
    if isCriticalError error? || s1.consecutiveFailures ≥ 3 then
      { s1 with isActive := false }
    else
      s1

/-- Models `AccountsService.updateAccountStatus(username, success, error?)`.
`now` is `Math.floor(Date.now() / 1000)`.  Returns the new state together
with the list of states passed to `writeRotationState`. -/
def updateAccountStatus (state : RotationState) (username : String)
    (success : Bool) (error? : Option String) (now : Nat) :
    RotationState × List RotationState :=
  let currentStatus := lookupD state.accountStatus username defaultStatus
  let newState :=
    { state with
        accountStatus :=
          setK state.accountStatus username
            (nextStatus currentStatus success error? now) }
  (newState, [newState])

/-- One step of the `for (const account of this.accounts)` loop of
`AccountsService.getLeastUsedAccount`.  The accumulator is the pair
`(leastUsedAccount, minUsage)`, with `none` in the second component
standing for the initial `Infinity`. -/
def leastUsedStep (uc : List (String × Nat)) (excluded : List String)
    (acc : Option IgAccount × Option Nat) (a : IgAccount) :
    Option IgAccount × Option Nat :=
  if excluded.contains a.username then acc
  else
    let usage := lookupD uc a.username 0
    match acc.2 with
    | none => (some a, some usage)
    | some m => if usage < m then (some a, some usage) else acc

/-- Models `AccountsService.getLeastUsedAccount(excludedUsernames)`.
Returns the selected account (or `null`), the new rotation state, and
the list of states handed to `writeRotationState`. -/
def getLeastUsedAccount (accounts : List IgAccount) (state : RotationState)
    (excluded : List String) (now : Nat) :
    Option IgAccount × RotationState × List RotationState :=
  if accounts = [] then (none, state, [])
  else
    match (accounts.foldl (leastUsedStep state.usageCount excluded) (none, none)).1 with
    | none => (none, state, [])
    | some a =>
      let newState :=
        { state with
            lastUsedTimestamps := setK state.lastUsedTimestamps a.username now,
            usageCount :=
              setK state.usageCount a.username
                (lookupD state.usageCount a.username 0 + 1) }
      (some a, newState, [newState])

/-- Proof-internal helper: resolve a candidate `a` against an earlier
optional pick; the earlier pick wins only with strictly smaller usage. -/
def tiePick (uc : List (String × Nat)) (a : IgAccount) :
    Option IgAccount → IgAccount
  | none => a
  | some b =>
    if lookupD uc b.username 0 < lookupD uc a.username 0 then b else a

/-- Proof-internal recursive restatement of the selection loop: the first
non-excluded account of minimal usage, ties to the earlier element. -/
def pickMin (uc : List (String × Nat)) (excluded : List String) :
    List IgAccount → Option IgAccount
  | [] => none
  | a :: rest =>
    if excluded.contains a.username then pickMin uc excluded rest
    else some (tiePick uc a (pickMin uc excluded rest))

/-- Proof-internal helper: the loop accumulator corresponding to a chosen
account. -/
def accPair (uc : List (String × Nat)) (x : IgAccount) :
    Option IgAccount × Option Nat :=
  (some x, some (lookupD uc x.username 0))

/-! ## Instagram GraphQL data model (instagram-graphql.interface.ts)

Fields the modelled code never reads (`pk`, `cursor` metadata, user and
clips metadata, tracking tokens, …) are elided.  Fields reached through
JavaScript optional chaining or truthiness tests are `Option`-typed. -/

structure InstagramVideoVersion where
  width : Nat
  height : Nat
  url : String
deriving DecidableEq, Repr

structure InstagramImageCandidate where
  url : String
  height : Nat
  width : Nat
deriving DecidableEq, Repr

structure InstagramImageVersions where
  candidates : List InstagramImageCandidate
deriving DecidableEq, Repr

structure InstagramCaption where
  created_at : Nat
  text : String
deriving DecidableEq, Repr

structure InstagramCarouselItem where
  id : String
  media_type : Nat
  image_versions2 : Option InstagramImageVersions
  video_versions : Option (List InstagramVideoVersion)
deriving DecidableEq, Repr

structure InstagramNode where
  code : String
  id : String
  caption : Option InstagramCaption
  taken_at : Nat
  video_versions : Option (List InstagramVideoVersion)
  image_versions2 : Option InstagramImageVersions
  product_type : String
  media_type : Nat
  like_count : Nat
  comment_count : Nat
  carousel_media : Option (List InstagramCarouselItem)
  has_audio : Option Bool
deriving DecidableEq, Repr

structure InstagramEdge where
  node : InstagramNode
deriving DecidableEq, Repr

structure InstagramTimelineConnection where
  edges : Option (List InstagramEdge)
deriving DecidableEq, Repr

structure InstagramGraphQLData where
  xdt_api__v1__feed__user_timeline_graphql_connection :
    Option InstagramTimelineConnection
deriving DecidableEq, Repr

structure InstagramGraphQLResponse where
  data : Option InstagramGraphQLData
deriving DecidableEq, Repr

inductive MediaKind
  | image
  | video
deriving DecidableEq, Repr

structure CleanedMedia where
  url : String
  type : MediaKind
  width : Nat
  height : Nat
deriving DecidableEq, Repr

inductive PostKind
  | feed
  | clips
  | carousel
deriving DecidableEq, Repr

structure OriginalData where
  productType : String
  mediaType : Nat
  hasAudio : Bool
deriving DecidableEq, Repr

structure CleanedInstagramPost where
  id : String
  shortcode : String
  text : String
  createdAt : Nat
  type : PostKind
  username : String
  media : List CleanedMedia
  likes : Nat
  comments : Nat
  permalink : String
  originalData : OriginalData
deriving DecidableEq, Repr

/-- The optional chain
`response.data?.xdt_api__v1__feed__user_timeline_graphql_connection?.edges`. -/
def timelineEdges? (r : InstagramGraphQLResponse) :
    Option (List InstagramEdge) :=
  r.data.bind fun d =>
    d.xdt_api__v1__feed__user_timeline_graphql_connection.bind fun c => c.edges

/-! ## Extraction (`InstagramScraperService.cleanNode` and
`scrapePostsFromPage`) -/

/-- Models `videoVersions.reduce((best, current) => current.width*current.height >
best.width*best.height ? current : best)`.  JavaScript `reduce` with no
initial value throws a `TypeError` on an empty array, which `cleanNode`
catches and turns into a dropped node: that case is `none`. -/
def bestVideoVersion : List InstagramVideoVersion → Option InstagramVideoVersion
  | [] => none
  | v :: rest =>
    some (rest.foldl
      (fun best current =>
        if current.width * current.height > best.width * best.height then current
        else best)
      v)

/-- The `for (const carouselItem of node.carousel_media)` loop of
`cleanNode`: collects one media entry per carousel child (video branch
picks the best video version, image branch takes the first candidate,
children with neither are skipped); `none` when a `reduce` throws. -/
def carouselMedia : List InstagramCarouselItem → Option (List CleanedMedia)
  | [] => some []
  | item :: rest =>
    if item.media_type = 2 ∧ item.video_versions.isSome then
      match bestVideoVersion (item.video_versions.getD []) with
      | none => none
      | some bv =>
        (carouselMedia rest).map fun ms =>
          { url := bv.url, type := MediaKind.video,
            width := bv.width, height := bv.height } :: ms
    else
      match item.image_versions2 with
      | some iv =>
        match iv.candidates with
        | [] => carouselMedia rest
        | best :: _ =>
          (carouselMedia rest).map fun ms =>
            { url := best.url, type := MediaKind.image,
              width := best.width, height := best.height } :: ms
      | none => carouselMedia rest

/-- Models `InstagramScraperService.cleanNode(node, username)`: `none` covers the
`return null` paths (missing `id`/`code`, or a caught exception from
`reduce` on an empty `video_versions`). -/
def cleanNode (node : InstagramNode) (username : String) :
    Option CleanedInstagramPost :=
  if node.id = "" ∨ node.code = "" then none
  else
    let text := (node.caption.map (fun c => c.text)).getD ""
    let createdAt :=
      if node.taken_at ≠ 0 then node.taken_at
      else (node.caption.map (fun c => c.created_at)).getD 0
    let type :=
      if node.product_type = "clips" ∨ node.media_type = 2 then PostKind.clips
      else if node.media_type = 8 then PostKind.carousel
      else PostKind.feed
    let media? : Option (List CleanedMedia) :=
      if type = PostKind.carousel ∧ node.carousel_media.isSome then
        carouselMedia (node.carousel_media.getD [])
      else if type = PostKind.clips ∧ node.video_versions.isSome then
        match bestVideoVersion (node.video_versions.getD []) with
        | none => none
        | some bv =>
          some [{ url := bv.url, type := MediaKind.video,
                  width := bv.width, height := bv.height }]
      else
        match node.image_versions2 with
        | some iv =>
          match iv.candidates with
          | [] => some []
          | best :: _ =>
            some [{ url := best.url, type := MediaKind.image,
                    width := best.width, height := best.height }]
        | none => some []
    match media? with
    | none => none
    | some media =>
      some
        { id := node.id, shortcode := node.code, text := text,
          createdAt := createdAt, type := type, username := username,
          media := media, likes := node.like_count,
          comments := node.comment_count,
          permalink := "https://instagram.com/p/" ++ node.code ++ "/",
          originalData :=
            { productType := node.product_type, mediaType := node.media_type,
              hasAudio := node.has_audio.getD false } }

/-- The nodes of all captured payloads in arrival order (the nested
`for (const response of graphqlResponses) … for (const edge of edges)`
loops, with absent edge lists contributing nothing). -/
def flattenNodes (rs : List InstagramGraphQLResponse) : List InstagramNode :=
  rs.flatMap fun r => ((timelineEdges? r).getD []).map fun e => e.node

/-- The dedup-and-normalize loop body of `scrapePostsFromPage`: skip a
node whose `id` is falsy or already in `uniqueIds`; otherwise clean it,
and only on a successful clean push the post and add the id. -/
def processNodes (username : String) :
    List InstagramNode → List String → List CleanedInstagramPost
  | [], _ => []
  | n :: rest, seen =>
    if n.id = "" ∨ n.id ∈ seen then processNodes username rest seen
    else
      match cleanNode n username with
      | some p => p :: processNodes username rest (seen ++ [n.id])
      | none => processNodes username rest seen

/-- Models `posts.sort((a, b) => b.createdAt - a.createdAt)`: stable sort by
`createdAt` descending, as JavaScript `Array.prototype.sort` is. -/
def sortPostsDesc (posts : List CleanedInstagramPost) :
    List CleanedInstagramPost :=
  posts.mergeSort fun a b => b.createdAt ≤ a.createdAt

/-- The pure tail of `InstagramScraperService.scrapePostsFromPage`: given
the captured payloads, dedup + normalize, sort newest-first, report
whether anything was captured, and truncate to the limit only after
sorting. -/
def extractPosts (rs : List InstagramGraphQLResponse) (username : String)
    (limit : Nat) : List CleanedInstagramPost × Bool :=
  let posts := processNodes username (flattenNodes rs) []
  let sorted := sortPostsDesc posts
  let graphqlCaptured := decide (rs.length > 0)
  (sorted.take limit, graphqlCaptured)

/-! ## Network response observer (`responseHandler` in
`scrapePostsFromPage`) -/

/-- One observed network response: `json = none` models a body on which
`response.json()` threw. -/
structure NetResponse where
  url : String
  json : Option InstagramGraphQLResponse
deriving DecidableEq, Repr

/-- The `responseHandler` registered with the page response hook: what
(if anything) a single response contributes to `graphqlResponses`.
Parse failures are swallowed (`catch` with an empty body). -/
def responseHandler (r : NetResponse) : Option InstagramGraphQLResponse :=
  if strIncludes r.url "graphql/query" then
    match r.json with
    | none => none
    | some data =>
      match timelineEdges? data with
      | some _ => some data
      | none => none
  else none

/-- The contents of `graphqlResponses` after the observer has seen the
responses `rs` in order. -/
def capturedResponses (rs : List NetResponse) : List InstagramGraphQLResponse :=
  rs.filterMap responseHandler

/-- A node with a duplicate id but missing `code`: dropped by `cleanNode`. -/
def nodeMissingCode : InstagramNode :=
  { code := "", id := "x", caption := none, taken_at := 5,
    video_versions := none, image_versions2 := none, product_type := "feed",
    media_type := 1, like_count := 0, comment_count := 0,
    carousel_media := none, has_audio := none }

/-- A later node with the same id `x` but a valid `code`. -/
def nodeDuplicateId : InstagramNode :=
  { nodeMissingCode with code := "c2", taken_at := 9 }

/-- The concrete payload with a present-but-empty timeline edge list. -/
def emptyTimelineResponse : InstagramGraphQLResponse :=
  { data := some
      { xdt_api__v1__feed__user_timeline_graphql_connection :=
          some { edges := some [] } } }

/-! ## Progressive scroll loop (`while (true)` in `scrapePostsFromPage`) -/

/-- Models `graphqlResponses.reduce((sum, r) => sum +
(r.data?.…connection?.edges?.length || 0), 0)`. -/
def capturedEdgeCount (rs : List InstagramGraphQLResponse) : Nat :=
  rs.foldl (fun sum r => sum + ((timelineEdges? r).map List.length).getD 0) 0

/-- Constant `STALE_SCROLL_THRESHOLD = 5`: stop after 5 consecutive scrolls with no
new posts. -/
def STALE_SCROLL_THRESHOLD : Nat := 5

/-- Why the loop stopped. -/
inductive ScrollExit
  | limitReached
  | endOfFeed
deriving DecidableEq, Repr

/-- The progressive scroll loop of `scrapePostsFromPage`: `counts i` is the
summed captured-edge count observed at the start of iteration `i` (the
list of captured payloads grows while the loop runs).  Returns the
exit reason and the iteration at which the loop stopped; `fuel` only
bounds the recursion depth and `none` marks fuel exhaustion. -/
def scrollLoop (counts : Nat → Nat) (limit : Nat) :
    Nat → Nat → Nat → Nat → Option (ScrollExit × Nat)
  | _, _, _, 0 => none
  | i, lastPostCount, noNewPostsCount, fuel + 1 =>
    let currentPostCount := counts i
    if currentPostCount ≥ limit then some (ScrollExit.limitReached, i)
    else if currentPostCount = lastPostCount then
      if noNewPostsCount + 1 ≥ STALE_SCROLL_THRESHOLD then
        some (ScrollExit.endOfFeed, i)
      else scrollLoop counts limit (i + 1) currentPostCount (noNewPostsCount + 1) fuel
    else scrollLoop counts limit (i + 1) currentPostCount 0 fuel

/-! ## Single-target orchestration (`executeScrape` / `scrapeProfile`) -/

/-- JavaScript `n || d` for an optional number (`maxPosts ||
this.maxPostsPerRequest`): `undefined` and `0` are falsy. -/
def jsOrNat (n? : Option Nat) (d : Nat) : Nat :=
  match n? with
  | some n => if n = 0 then d else n
  | none => d

/-- What one scrape attempt observes from the driven page: the login-wall
check, the page title, the private-account marker, and the network
responses seen by the observer. -/
structure PageEnv where
  needsLogin : Bool
  title : String
  isPrivate : Bool
  responses : List NetResponse
deriving Repr

/-- Models the title check for the substrings `Login` and `Page Not Found`. -/
def titleBlocked (title : String) : Bool :=
  strIncludes title "Login" || strIncludes title "Page Not Found"

/-- The per-target outcome record returned by `executeScrape` (the
private-profile return carries no `postsCount`/`graphqlCaptured`, hence
the `Option`s). -/
structure ScrapeOutcome where
  success : Bool
  username : String
  posts : List CleanedInstagramPost
  postsCount : Option Nat
  graphqlCaptured : Option Bool
  scrapedWith : String
  scrapedAt : Nat
  error : Option String
deriving DecidableEq, Repr

/-- Models `InstagramScraperService.executeScrape(account, targetUsername, …)`:
throws (`Except.error`) on a login wall or a blocked title; returns a
non-thrown empty outcome with the `Account is private` error on the
private marker (with no ledger update); otherwise extracts, filters by
`createdAt` and reports success to the ledger.  The returned state is
the rotation state after the attempt. -/
def executeScrape (state : RotationState) (env : PageEnv) (account : IgAccount)
    (targetUsername : String) (maxPosts? : Option Nat) (maxPostsPerRequest : Nat)
    (createdAt? : Option Nat) (now : Nat) :
    Except String ScrapeOutcome × RotationState :=
  if env.needsLogin then
    (Except.error "Session invalid (login required). Triggering repair.", state)
  else if titleBlocked env.title then
    (Except.error ("Failed to load profile (Title: " ++ env.title ++ ")"), state)
  else if env.isPrivate then
    (Except.ok
      { success := false, username := targetUsername, posts := [],
        postsCount := none, graphqlCaptured := none,
        scrapedWith := account.username, scrapedAt := now,
        error := some "Account is private" }, state)
  else
    let limit := jsOrNat maxPosts? maxPostsPerRequest
    let extracted := extractPosts (capturedResponses env.responses) targetUsername limit
    let filteredPosts :=
      if jsTruthyNat createdAt? then
        extracted.1.filter fun p => createdAt?.getD 0 < p.createdAt
      else extracted.1
    (Except.ok
      { success := true, username := targetUsername, posts := filteredPosts,
        postsCount := some filteredPosts.length,
        graphqlCaptured := some extracted.2,
        scrapedWith := account.username, scrapedAt := now,
        error := none },
      (updateAccountStatus state account.username true none now).1)

/-- The `while (attempts < totalAccounts)` retry loop of
`InstagramScraperService.scrapeProfile`: select the least-used account
excluding the ones that already failed, attempt, and on a thrown error
record the failure, extend the exclusion list and loop.  `envOf` gives
the page environment an attempt with a given bot account observes. -/
def scrapeProfileLoop (accounts : List IgAccount) (envOf : String → PageEnv)
    (targetUsername : String) (maxPosts? : Option Nat) (maxPostsPerRequest : Nat)
    (createdAt? : Option Nat) (now : Nat) :
    Nat → List String → RotationState →
    Except String (ScrapeOutcome × RotationState)
  | 0, _, _ => Except.error "Scraping failed: all accounts exhausted"
  | fuel + 1, failedUsernames, state =>
    match getLeastUsedAccount accounts state failedUsernames now with
    | (none, _, _) => Except.error "Scraping failed: all accounts exhausted"
    | (some account, state1, _) =>
      match executeScrape state1 (envOf account.username) account targetUsername
          maxPosts? maxPostsPerRequest createdAt? now with
      | (Except.ok outcome, state2) => Except.ok (outcome, state2)
      | (Except.error e, state2) =>
        scrapeProfileLoop accounts envOf targetUsername maxPosts? maxPostsPerRequest
          createdAt? now fuel (failedUsernames ++ [account.username])
          (updateAccountStatus state2 account.username false (some e) now).1

/-- Models `InstagramScraperService.scrapeProfile(username, …)`:
the retry loop started with no exclusions and at most
`totalAccounts` attempts. -/
def scrapeProfile (accounts : List IgAccount) (envOf : String → PageEnv)
    (targetUsername : String) (maxPosts? : Option Nat) (maxPostsPerRequest : Nat)
    (createdAt? : Option Nat) (now : Nat) (state0 : RotationState) :
    Except String (ScrapeOutcome × RotationState) :=
  scrapeProfileLoop accounts envOf targetUsername maxPosts? maxPostsPerRequest
    createdAt? now accounts.length [] state0

/-- A profile page showing the private-account marker. -/
def privatePageEnv : PageEnv :=
  { needsLogin := false, title := "Target - Instagram photos and videos",
    isPrivate := true, responses := [] }

/-! ## Browser session pool (`BrowserService.getBrowserForSession`)

The method is `async`, so concurrency is cooperative: each caller runs a
synchronous prefix up to its first `await`, and when the launch promise
resolves, all registered continuations run back-to-back on the microtask
queue (in registration order, with no new caller interleaving) — the
owner stores the instance in `browserInstances` and clears
`launchingInstances`, the waiters just return the instance.  The model
below is an event system over those atomic sections, for a single
session key starting with no live session. -/

/-- Where one `getBrowserForSession` caller stands. -/
inductive CallerPhase
  | pending
  | awaitingLaunch (launchId : Nat)
  | done (instanceId : Nat)
deriving DecidableEq, Repr

/-- Pool state for one session key and `n` concurrent callers:
`live` is the `browserInstances` entry, `launching` the
`launchingInstances` entry, `launchCount` the number of `launchBrowser`
invocations so far (launch `l` produces instance `l`). -/
structure PoolState (n : Nat) where
  live : Option Nat
  launching : Option Nat
  launchCount : Nat
  callers : Fin n → CallerPhase

/-- No live session, no launch in flight, nobody has run yet. -/
def initialPoolState (n : Nat) : PoolState n :=
  { live := none, launching := none, launchCount := 0,
    callers := fun _ => CallerPhase.pending }

/-- Scheduler events: `start c` runs the synchronous prefix of caller `c`
(the `browserInstances` lookup, the `launchingInstances` lookup, and
possibly registering a new launch); `complete l` resolves launch `l` and
drains all awaiting continuations. -/
inductive PoolEvent (n : Nat)
  | start (c : Fin n)
  | complete (l : Nat)

/-- One event of the `getBrowserForSession` model; `none` when the event
is not enabled (the caller already ran, or no such launch is pending). -/
def poolStep {n : Nat} (s : PoolState n) : PoolEvent n → Option (PoolState n)
  | PoolEvent.start c =>
    if s.callers c ≠ CallerPhase.pending then none
    else
      match s.live with
      | some i =>
        some { s with callers := Function.update s.callers c (CallerPhase.done i) }
      | none =>
        match s.launching with
        | some l =>
          some { s with
              callers := Function.update s.callers c (CallerPhase.awaitingLaunch l) }
        | none =>
          some { s with
              launching := some s.launchCount,
              launchCount := s.launchCount + 1,
              callers :=
                Function.update s.callers c
                  (CallerPhase.awaitingLaunch s.launchCount) }
  | PoolEvent.complete l =>
    if s.launching = some l then
      some { s with
          live := some l, launching := none,
          callers := fun c =>
            if s.callers c = CallerPhase.awaitingLaunch l then CallerPhase.done l
            else s.callers c }
    else none

/-- Run a schedule of events from the initial state. -/
def runPool (n : Nat) (events : List (PoolEvent n)) : Option (PoolState n) :=
  events.foldl (fun s? e => s?.bind fun s => poolStep s e)
    (some (initialPoolState n))

/-- Reachable-state invariant of the pool model: at most one launch ever
happens, and every finished caller holds instance 0. -/
def PoolInv {n : Nat} (s : PoolState n) : Prop :=
  (s.launchCount = 0 ∧ s.live = none ∧ s.launching = none ∧
    ∀ c, s.callers c = CallerPhase.pending) ∨
  (s.launchCount = 1 ∧ s.launching = some 0 ∧ s.live = none ∧
    ∀ c, s.callers c = CallerPhase.pending ∨
      s.callers c = CallerPhase.awaitingLaunch 0) ∨
  (s.launchCount = 1 ∧ s.launching = none ∧ s.live = some 0 ∧
    ∀ c, s.callers c = CallerPhase.pending ∨ s.callers c = CallerPhase.done 0)

/-! ## Theorems -/

theorem lookupD_setK_self {α : Type} (m : List (String × α)) (k : String) (v d : α) :
    lookupD (setK m k v) k d = v := by
  induction m with
  | nil => simp [setK, lookupD]
  | cons p rest ih =>
    by_cases h : p.1 = k
    · simp [setK, h, lookupD]
    · simp [setK, h, lookupD, ih]

theorem lookupD_setK_ne {α : Type} (m : List (String × α)) (k k' : String) (v d : α)
    (h : k' ≠ k) : lookupD (setK m k v) k' d = lookupD m k' d := by
  have h1 : ¬ (k = k') := fun he => h he.symm
  induction m with
  | nil =>
    simp only [setK, lookupD, if_neg h1]
  | cons p rest ih =>
    by_cases hp : p.1 = k
    · have h2 : ¬ (p.1 = k') := by rw [hp]; exact h1
      simp [setK, if_pos hp, lookupD, h1, h2]
    · simp [setK, if_neg hp, lookupD, ih]

theorem nextStatus_true (old : AccountStatus) (error? : Option String) (now : Nat) :
    nextStatus old true error? now =
      { old with
          isActive := true, lastSuccess := some now,
          consecutiveFailures := 0, failureReason := none } := rfl

theorem nextStatus_false (old : AccountStatus) (error? : Option String) (now : Nat) :
    nextStatus old false error? now =
      if isCriticalError error? || old.consecutiveFailures + 1 ≥ 3 then
        { old with
            lastFailure := some now,
            failureReason := some (jsOrStr error? "Unknown error"),
            consecutiveFailures := old.consecutiveFailures + 1,
            isActive := false }
      else
        { old with
            lastFailure := some now,
            failureReason := some (jsOrStr error? "Unknown error"),
            consecutiveFailures := old.consecutiveFailures + 1 } := rfl

theorem updateAccountStatus_lookup_self (state : RotationState) (username : String)
    (success : Bool) (error? : Option String) (now : Nat) :
    lookupD (updateAccountStatus state username success error? now).1.accountStatus
        username defaultStatus =
      nextStatus (lookupD state.accountStatus username defaultStatus)
        success error? now := by
  simp only [updateAccountStatus, lookupD_setK_self]

theorem tiePick_none (uc : List (String × Nat)) (a : IgAccount) :
    tiePick uc a none = a := rfl

theorem tiePick_some (uc : List (String × Nat)) (a t : IgAccount) :
    tiePick uc a (some t) =
      if lookupD uc t.username 0 < lookupD uc a.username 0 then t else a := rfl

theorem pickMin_cons (uc : List (String × Nat)) (excluded : List String)
    (a : IgAccount) (rest : List IgAccount) :
    pickMin uc excluded (a :: rest) =
      if excluded.contains a.username then pickMin uc excluded rest
      else some (tiePick uc a (pickMin uc excluded rest)) := rfl

theorem leastUsedStep_accPair (uc : List (String × Nat)) (excluded : List String)
    (b a : IgAccount) :
    leastUsedStep uc excluded (accPair uc b) a =
      if excluded.contains a.username then accPair uc b
      else if lookupD uc a.username 0 < lookupD uc b.username 0 then accPair uc a
      else accPair uc b := by
  by_cases hex : excluded.contains a.username
  · simp only [leastUsedStep, accPair, if_pos hex]
  · simp only [leastUsedStep, accPair, if_neg hex]

theorem tiePick_usage_le (uc : List (String × Nat)) (a : IgAccount)
    (o : Option IgAccount) :
    lookupD uc (tiePick uc a o).username 0 ≤ lookupD uc a.username 0 := by
  cases o with
  | none => exact le_refl _
  | some b =>
    simp only [tiePick]
    by_cases h : lookupD uc b.username 0 < lookupD uc a.username 0
    · rw [if_pos h]; exact le_of_lt h
    · rw [if_neg h]

theorem leastUsedStep_foldl_some (uc : List (String × Nat)) (excluded : List String)
    (l : List IgAccount) (b : IgAccount) :
    l.foldl (leastUsedStep uc excluded) (accPair uc b) =
      accPair uc (tiePick uc b (pickMin uc excluded l)) := by
  induction l generalizing b with
  | nil => rw [List.foldl_nil]; rfl
  | cons a rest ih =>
    rw [List.foldl_cons, leastUsedStep_accPair, pickMin_cons]
    by_cases hex : excluded.contains a.username
    · rw [if_pos hex, if_pos hex, ih b]
    · rw [if_neg hex, if_neg hex,
        tiePick_some uc b (tiePick uc a (pickMin uc excluded rest))]
      by_cases hab : lookupD uc a.username 0 < lookupD uc b.username 0
      · rw [if_pos hab, ih a]
        have ht : lookupD uc (tiePick uc a (pickMin uc excluded rest)).username 0 <
            lookupD uc b.username 0 :=
          lt_of_le_of_lt (tiePick_usage_le uc a (pickMin uc excluded rest)) hab
        rw [if_pos ht]
      · rw [if_neg hab, ih b]
        cases hrest : pickMin uc excluded rest with
        | none =>
          simp only [tiePick_none, if_neg hab]
        | some c =>
          simp only [tiePick_some]
          by_cases hca : lookupD uc c.username 0 < lookupD uc a.username 0
          · rw [if_pos hca]
          · have hbc : ¬ lookupD uc c.username 0 < lookupD uc b.username 0 :=
              not_lt.mpr (le_trans (le_of_not_lt hab) (le_of_not_lt hca))
            rw [if_neg hca, if_neg hbc, if_neg hab]

theorem leastUsedStep_foldl (uc : List (String × Nat)) (excluded : List String)
    (l : List IgAccount) :
    (l.foldl (leastUsedStep uc excluded) (none, none)).1 = pickMin uc excluded l := by
  induction l with
  | nil => rfl
  | cons a rest ih =>
    rw [List.foldl_cons, pickMin_cons]
    by_cases hex : excluded.contains a.username
    · rw [if_pos hex]
      have hstep : leastUsedStep uc excluded (none, none) a = (none, none) := by
        simp only [leastUsedStep, if_pos hex]
      rw [hstep]
      exact ih
    · rw [if_neg hex]
      have hstep : leastUsedStep uc excluded (none, none) a = accPair uc a := by
        simp only [leastUsedStep, accPair, if_neg hex]
      rw [hstep, leastUsedStep_foldl_some]
      rfl

theorem pickMin_eq_none_iff (uc : List (String × Nat)) (excluded : List String)
    (l : List IgAccount) :
    pickMin uc excluded l = none ↔ ∀ a ∈ l, excluded.contains a.username := by
  induction l with
  | nil => simp [pickMin]
  | cons a rest ih =>
    by_cases hex : excluded.contains a.username
    · simp only [pickMin, if_pos hex]
      rw [ih]
      constructor
      · intro h b hb
        rcases List.mem_cons.mp hb with hb | hb
        · rw [hb]; exact hex
        · exact h b hb
      · intro h b hb
        exact h b (List.mem_cons_of_mem a hb)
    · simp only [pickMin, if_neg hex]
      constructor
      · intro h
        exact Option.noConfusion h
      · intro h
        exact absurd (h a (List.mem_cons_self a rest)) hex

theorem pickMin_spec (uc : List (String × Nat)) (excluded : List String)
    (l : List IgAccount) (a : IgAccount) (h : pickMin uc excluded l = some a) :
    ∃ l1 l2, l = l1 ++ a :: l2 ∧ excluded.contains a.username = false ∧
      (∀ b ∈ l1, excluded.contains b.username = false →
        lookupD uc a.username 0 < lookupD uc b.username 0) ∧
      (∀ b ∈ l2, excluded.contains b.username = false →
        lookupD uc a.username 0 ≤ lookupD uc b.username 0) := by
  induction l generalizing a with
  | nil => simp [pickMin] at h
  | cons x rest ih =>
    by_cases hex : excluded.contains x.username
    · rw [pickMin, if_pos hex] at h
      obtain ⟨l1, l2, hsplit, hna, h1, h2⟩ := ih a h
      exact ⟨x :: l1, l2, by rw [hsplit]; rfl, hna,
        fun b hb hbex => by
          rcases List.mem_cons.mp hb with hb | hb
          · rw [hb] at hbex; rw [hex] at hbex; cases hbex
          · exact h1 b hb hbex,
        h2⟩
    · rw [pickMin, if_neg hex] at h
      have ha : a = tiePick uc x (pickMin uc excluded rest) :=
        (Option.some_injective _ h.symm)
      cases hrest : pickMin uc excluded rest with
      | none =>
        rw [hrest] at ha
        simp only [tiePick] at ha
        rw [ha]
        refine ⟨[], rest, rfl, Bool.of_not_eq_true hex, by simp, ?_⟩
        intro b hb hbex
        have := (pickMin_eq_none_iff uc excluded rest).mp hrest b hb
        rw [this] at hbex
        cases hbex
      | some c =>
        rw [hrest] at ha
        simp only [tiePick] at ha
        by_cases hcx : lookupD uc c.username 0 < lookupD uc x.username 0
        · rw [if_pos hcx] at ha
          rw [ha]
          obtain ⟨l1, l2, hsplit, hna, h1, h2⟩ := ih c hrest
          exact ⟨x :: l1, l2, by rw [hsplit]; rfl, hna,
            fun b hb hbex => by
              rcases List.mem_cons.mp hb with hb | hb
              · rw [hb]; exact hcx
              · exact h1 b hb hbex,
            h2⟩
        · rw [if_neg hcx] at ha
          rw [ha]
          refine ⟨[], rest, rfl, Bool.of_not_eq_true hex, by simp, ?_⟩
          intro b hb hbex
          obtain ⟨l1, l2, hsplit, hna, h1, h2⟩ := ih c hrest
          have hac : lookupD uc x.username 0 ≤ lookupD uc c.username 0 :=
            le_of_not_lt hcx
          rw [hsplit] at hb
          rcases List.mem_append.mp hb with hb | hb
          · exact le_of_lt (lt_of_le_of_lt hac (h1 b hb hbex))
          · rcases List.mem_cons.mp hb with hb | hb
            · rw [hb]; exact hac
            · exact le_trans hac (h2 b hb hbex)

theorem getLeastUsedAccount_fst (accounts : List IgAccount) (state : RotationState)
    (excluded : List String) (now : Nat) :
    (getLeastUsedAccount accounts state excluded now).1 =
      if accounts = [] then none
      else pickMin state.usageCount excluded accounts := by
  by_cases hacc : accounts = []
  · simp [getLeastUsedAccount, hacc]
  · simp only [getLeastUsedAccount, if_neg hacc, leastUsedStep_foldl]
    cases hpick : pickMin state.usageCount excluded accounts with
    | none => simp
    | some a => simp

/-! ## Claim theorems for the account ledger -/

/-- Claim C8: reporting a failure outcome increments `consecutiveFailures`
by exactly 1 and updates `lastFailure` and `failureReason`; reporting a
success outcome resets `consecutiveFailures` to 0, sets `isActive` to
true, clears `failureReason`, and updates `lastSuccess`; the updated
record is persisted (handed to `writeRotationState`) after every such
mutation. -/
theorem reportOutcome_field_updates (state : RotationState) (username : String)
    (error? : Option String) (now : Nat) :
    (let fres := updateAccountStatus state username false error? now
     let old := lookupD state.accountStatus username defaultStatus
     let fnew := lookupD fres.1.accountStatus username defaultStatus
     fnew.consecutiveFailures = old.consecutiveFailures + 1 ∧
       fnew.lastFailure = some now ∧
       fnew.failureReason = some (jsOrStr error? "Unknown error") ∧
       fres.2 = [fres.1]) ∧
    (let sres := updateAccountStatus state username true error? now
     let snew := lookupD sres.1.accountStatus username defaultStatus
     snew.consecutiveFailures = 0 ∧ snew.isActive = true ∧
       snew.failureReason = none ∧ snew.lastSuccess = some now ∧
       sres.2 = [sres.1]) := by
  refine ⟨?_, ?_⟩
  · simp only [updateAccountStatus_lookup_self, nextStatus_false]
    refine ⟨?_, ?_, ?_, rfl⟩ <;> (split <;> rfl)
  · refine ⟨?_, ?_, ?_, ?_, rfl⟩ <;>
      simp [updateAccountStatus_lookup_self, nextStatus_true]

/-- Claim C2 (amended): after a failure report the account is inactive
exactly when the failure reason matches a critical pattern of the source
(`challenge` / `inhabilitada` / `suspended` / `banned` — the source uses
the Spanish `inhabilitada`, not `disabled`), or the new consecutive
failure count reaches 3, or the account was already inactive; a success
report always reactivates the account. -/
theorem isActive_transition (state : RotationState) (username : String)
    (error? : Option String) (now : Nat) :
    (let old := lookupD state.accountStatus username defaultStatus
     let fnew := lookupD (updateAccountStatus state username false error? now).1.accountStatus
       username defaultStatus
     fnew.isActive = false ↔
       isCriticalError error? = true ∨ old.consecutiveFailures + 1 ≥ 3 ∨
         old.isActive = false) ∧
    (lookupD (updateAccountStatus state username true error? now).1.accountStatus
        username defaultStatus).isActive = true := by
  refine ⟨?_, ?_⟩
  · simp only [updateAccountStatus_lookup_self, nextStatus_false]
    by_cases hc : (isCriticalError error? ||
        decide ((lookupD state.accountStatus username defaultStatus).consecutiveFailures + 1 ≥ 3)) = true
    · rw [if_pos hc]
      simp only [Bool.or_eq_true, decide_eq_true_eq] at hc
      simp only [true_iff]
      rcases hc with hc | hc
      · exact Or.inl hc
      · exact Or.inr (Or.inl hc)
    · rw [if_neg hc]
      simp only [Bool.or_eq_true, decide_eq_true_eq, not_or] at hc
      constructor
      · intro h
        exact Or.inr (Or.inr h)
      · intro h
        rcases h with h | h | h
        · exact absurd h hc.1
        · exact absurd h hc.2
        · exact h
  · simp only [updateAccountStatus_lookup_self, nextStatus_true]

/-- Claim C2 counterexample: a failure whose reason contains the
specification pattern `disabled` does not match any critical pattern of
the source (which tests for the Spanish `inhabilitada` instead), so a
first failure with that reason leaves the account active, contradicting
the claim that it immediately becomes inactive. -/
theorem disabled_reason_keeps_account_active :
    specCriticalPattern (some "Account has been disabled") = true ∧
    isCriticalError (some "Account has been disabled") = false ∧
    (lookupD (updateAccountStatus initialRotationState "bot1" false
        (some "Account has been disabled") 100).1.accountStatus
      "bot1" defaultStatus).isActive = true := by
  refine ⟨by decide, by decide, by decide⟩

/-- Claim C2 witness: instantiation of `isActive_transition` at a concrete
state, showing a critical `challenge` failure quarantines on the very
first failure. -/
theorem isActive_transition_witness :
    (let old := lookupD initialRotationState.accountStatus "bot1" defaultStatus
     let fnew := lookupD (updateAccountStatus initialRotationState "bot1" false
       (some "challenge required") 7).1.accountStatus "bot1" defaultStatus
     fnew.isActive = false ↔
       isCriticalError (some "challenge required") = true ∨
         old.consecutiveFailures + 1 ≥ 3 ∨ old.isActive = false) ∧
    (lookupD (updateAccountStatus initialRotationState "bot1" true
        (some "challenge required") 7).1.accountStatus
      "bot1" defaultStatus).isActive = true :=
  isActive_transition initialRotationState "bot1" (some "challenge required") 7

/-- Claim C4: a non-interleaved `getLeastUsedAccount` call returns `null`
exactly when every configured account is excluded; otherwise it returns
the non-excluded account of globally minimal persisted usage count with
ties resolved to the earliest-configured one, increments the selected
usage counter of the account, stamps its last-used timestamp, and persists the updated
state before returning. -/
theorem getLeastUsedAccount_spec (accounts : List IgAccount) (state : RotationState)
    (excluded : List String) (now : Nat) :
    ((getLeastUsedAccount accounts state excluded now).1 = none ↔
      ∀ b ∈ accounts, excluded.contains b.username = true) ∧
    (∀ a, (getLeastUsedAccount accounts state excluded now).1 = some a →
      (∃ l1 l2, accounts = l1 ++ a :: l2 ∧
        excluded.contains a.username = false ∧
        (∀ b ∈ l1, excluded.contains b.username = false →
          lookupD state.usageCount a.username 0 < lookupD state.usageCount b.username 0) ∧
        (∀ b ∈ l2, excluded.contains b.username = false →
          lookupD state.usageCount a.username 0 ≤ lookupD state.usageCount b.username 0)) ∧
      (let st := (getLeastUsedAccount accounts state excluded now).2.1
       lookupD st.usageCount a.username 0 = lookupD state.usageCount a.username 0 + 1 ∧
       (∀ u, u ≠ a.username → lookupD st.usageCount u 0 = lookupD state.usageCount u 0) ∧
       lookupD st.lastUsedTimestamps a.username 0 = now ∧
       st.accountStatus = state.accountStatus ∧
       (getLeastUsedAccount accounts state excluded now).2.2 = [st])) := by
  constructor
  · rw [getLeastUsedAccount_fst]
    by_cases hacc : accounts = []
    · subst hacc
      simp
    · rw [if_neg hacc, pickMin_eq_none_iff]
  · intro a ha
    rw [getLeastUsedAccount_fst] at ha
    by_cases hacc : accounts = []
    · rw [if_pos hacc] at ha
      cases ha
    · rw [if_neg hacc] at ha
      refine ⟨pickMin_spec state.usageCount excluded accounts a ha, ?_⟩
      have hres : getLeastUsedAccount accounts state excluded now =
          (some a,
            { state with
                lastUsedTimestamps := setK state.lastUsedTimestamps a.username now,
                usageCount :=
                  setK state.usageCount a.username
                    (lookupD state.usageCount a.username 0 + 1) },
            [{ state with
                lastUsedTimestamps := setK state.lastUsedTimestamps a.username now,
                usageCount :=
                  setK state.usageCount a.username
                    (lookupD state.usageCount a.username 0 + 1) }]) := by
        simp only [getLeastUsedAccount, if_neg hacc, leastUsedStep_foldl, ha]
      rw [hres]
      refine ⟨lookupD_setK_self _ _ _ _, ?_, lookupD_setK_self _ _ _ _, rfl, rfl⟩
      intro u hu
      exact lookupD_setK_ne _ _ _ _ _ hu

/-- Claim C4 witness: instantiation of `getLeastUsedAccount_spec` on two
accounts with equal usage, checking the tie goes to the first-configured
account and its counter is bumped. -/
theorem getLeastUsedAccount_spec_witness :
    ((getLeastUsedAccount
        [⟨"alice", "pw1"⟩, ⟨"bob", "pw2"⟩] initialRotationState [] 5).1 = none ↔
      ∀ b ∈ [(⟨"alice", "pw1"⟩ : IgAccount), ⟨"bob", "pw2"⟩],
        List.contains [] b.username = true) ∧
    (getLeastUsedAccount
        [⟨"alice", "pw1"⟩, ⟨"bob", "pw2"⟩] initialRotationState [] 5).1 =
      some ⟨"alice", "pw1"⟩ ∧
    lookupD (getLeastUsedAccount
        [⟨"alice", "pw1"⟩, ⟨"bob", "pw2"⟩] initialRotationState [] 5).2.1.usageCount
      "alice" 0 = 1 := by
  refine ⟨(getLeastUsedAccount_spec _ _ _ _).1, by decide, ?_⟩
  have h := ((getLeastUsedAccount_spec
    [⟨"alice", "pw1"⟩, ⟨"bob", "pw2"⟩] initialRotationState [] 5).2
    ⟨"alice", "pw1"⟩ (by decide)).2
  exact h.1

/-- Claim C10: `getLeastUsedAccount` never consults account health: its
selection is unchanged under any replacement of the persisted
`accountStatus` map, so an account quarantined by the health ledger
(`isActive = false`) is still returned whenever it would be returned
otherwise. -/
theorem getLeastUsedAccount_ignores_health (accounts : List IgAccount)
    (state : RotationState) (m : List (String × AccountStatus))
    (excluded : List String) (now : Nat) :
    ((getLeastUsedAccount accounts { state with accountStatus := m } excluded now).1 =
      (getLeastUsedAccount accounts state excluded now).1) ∧
    (∀ a, (getLeastUsedAccount accounts state excluded now).1 = some a →
      (getLeastUsedAccount accounts
          { state with
              accountStatus :=
                setK state.accountStatus a.username
                  { lookupD state.accountStatus a.username defaultStatus with
                      isActive := false } }
          excluded now).1 = some a) := by
  have hbase : ∀ m2 : List (String × AccountStatus),
      (getLeastUsedAccount accounts { state with accountStatus := m2 } excluded now).1 =
        (getLeastUsedAccount accounts state excluded now).1 := by
    intro m2
    rw [getLeastUsedAccount_fst, getLeastUsedAccount_fst]
  refine ⟨hbase m, ?_⟩
  intro a ha
  rw [hbase _, ha]

/-- Claim C10 witness: instantiation of `getLeastUsedAccount_ignores_health`
at a state whose only account is quarantined: it is still selected. -/
theorem getLeastUsedAccount_ignores_health_witness :
    ((getLeastUsedAccount [⟨"alice", "pw1"⟩]
        { initialRotationState with
            accountStatus := [("alice",
              { defaultStatus with isActive := false })] } [] 3).1 =
      (getLeastUsedAccount [⟨"alice", "pw1"⟩] initialRotationState [] 3).1) ∧
    (getLeastUsedAccount [⟨"alice", "pw1"⟩]
        { initialRotationState with
            accountStatus :=
              setK initialRotationState.accountStatus "alice"
                { lookupD initialRotationState.accountStatus "alice" defaultStatus with
                    isActive := false } }
        [] 3).1 = some ⟨"alice", "pw1"⟩ :=
  ⟨(getLeastUsedAccount_ignores_health [⟨"alice", "pw1"⟩] initialRotationState
      [("alice", { defaultStatus with isActive := false })] [] 3).1,
    (getLeastUsedAccount_ignores_health [⟨"alice", "pw1"⟩] initialRotationState
      [("alice", { defaultStatus with isActive := false })] [] 3).2
      ⟨"alice", "pw1"⟩ (by decide)⟩

/-! ## Theorems for extraction and the response observer -/

theorem processNodes_cons (username : String) (n : InstagramNode)
    (rest : List InstagramNode) (seen : List String) :
    processNodes username (n :: rest) seen =
      if n.id = "" ∨ n.id ∈ seen then processNodes username rest seen
      else
        match cleanNode n username with
        | some p => p :: processNodes username rest (seen ++ [n.id])
        | none => processNodes username rest seen := rfl

theorem cleanNode_id (node : InstagramNode) (username : String)
    (p : CleanedInstagramPost) (h : cleanNode node username = some p) :
    p.id = node.id := by
  simp only [cleanNode] at h
  by_cases h0 : node.id = "" ∨ node.code = ""
  · rw [if_pos h0] at h
    cases h
  · rw [if_neg h0] at h
    split at h
    · cases h
    · cases h
      rfl

theorem processNodes_ids_nodup (username : String) (ns : List InstagramNode) :
    ∀ seen : List String,
      ((processNodes username ns seen).map fun p => p.id).Nodup ∧
      ∀ p ∈ processNodes username ns seen, p.id ∉ seen := by
  induction ns with
  | nil =>
    intro seen
    exact ⟨List.nodup_nil, fun p hp => absurd hp (List.not_mem_nil p)⟩
  | cons n rest ih =>
    intro seen
    rw [processNodes_cons]
    by_cases hskip : n.id = "" ∨ n.id ∈ seen
    · rw [if_pos hskip]
      exact ih seen
    · rw [if_neg hskip]
      push_neg at hskip
      cases hc : cleanNode n username with
      | none => exact ih seen
      | some p =>
        have hpid : p.id = n.id := cleanNode_id n username p hc
        obtain ⟨htail_nodup, htail_unseen⟩ := ih (seen ++ [n.id])
        constructor
        · rw [List.map_cons, List.nodup_cons]
          refine ⟨?_, htail_nodup⟩
          intro hmem
          obtain ⟨q, hq, hqid⟩ := List.mem_map.mp hmem
          have := htail_unseen q hq
          rw [hqid, hpid] at this
          exact this (List.mem_append.mpr (Or.inr (List.mem_singleton.mpr rfl)))
        · intro q hq
          rcases List.mem_cons.mp hq with hq | hq
          · rw [hq, hpid]
            exact hskip.2
          · intro hmem
            exact htail_unseen q hq (List.mem_append.mpr (Or.inl hmem))

theorem processNodes_keeps_first_valid (username : String) (n : InstagramNode)
    (l2 : List InstagramNode) (p : CleanedInstagramPost) :
    ∀ (l1 : List InstagramNode) (seen : List String), n.id ∉ seen → n.id ≠ "" →
      cleanNode n username = some p →
      (∀ m ∈ l1, m.id = n.id → cleanNode m username = none) →
      p ∈ processNodes username (l1 ++ n :: l2) seen := by
  intro l1
  induction l1 with
  | nil =>
    intro seen hns hne hclean _
    rw [List.nil_append, processNodes_cons, if_neg (by
      intro h
      rcases h with h | h
      · exact hne h
      · exact hns h), hclean]
    exact List.mem_cons_self p _
  | cons m l1 ih =>
    intro seen hns hne hclean hfirst
    rw [List.cons_append, processNodes_cons]
    by_cases hskip : m.id = "" ∨ m.id ∈ seen
    · rw [if_pos hskip]
      exact ih seen hns hne hclean fun b hb => hfirst b (List.mem_cons_of_mem m hb)
    · rw [if_neg hskip]
      cases hc : cleanNode m username with
      | none =>
        exact ih seen hns hne hclean fun b hb => hfirst b (List.mem_cons_of_mem m hb)
      | some q =>
        have hmn : m.id ≠ n.id := by
          intro hmn
          have := hfirst m (List.mem_cons_self m l1) hmn
          rw [this] at hc
          cases hc
        refine List.mem_cons_of_mem q ?_
        refine ih (seen ++ [m.id]) ?_ hne hclean
          (fun b hb => hfirst b (List.mem_cons_of_mem m hb))
        intro hmem
        rcases List.mem_append.mp hmem with hmem | hmem
        · exact hns hmem
        · exact hmn (List.mem_singleton.mp hmem).symm

theorem processNodes_sources (username : String) (ns : List InstagramNode) :
    ∀ (seen : List String) (p : CleanedInstagramPost),
      p ∈ processNodes username ns seen →
      ∃ n ∈ ns, cleanNode n username = some p := by
  induction ns with
  | nil =>
    intro seen p hp
    exact absurd hp (List.not_mem_nil p)
  | cons n rest ih =>
    intro seen p hp
    rw [processNodes_cons] at hp
    by_cases hskip : n.id = "" ∨ n.id ∈ seen
    · rw [if_pos hskip] at hp
      obtain ⟨m, hm, hmc⟩ := ih seen p hp
      exact ⟨m, List.mem_cons_of_mem n hm, hmc⟩
    · rw [if_neg hskip] at hp
      cases hc : cleanNode n username with
      | none =>
        rw [hc] at hp
        obtain ⟨m, hm, hmc⟩ := ih seen p hp
        exact ⟨m, List.mem_cons_of_mem n hm, hmc⟩
      | some q =>
        rw [hc] at hp
        rcases List.mem_cons.mp hp with hp | hp
        · exact ⟨n, List.mem_cons_self n rest, by rw [hc, hp]⟩
        · obtain ⟨m, hm, hmc⟩ := ih (seen ++ [n.id]) p hp
          exact ⟨m, List.mem_cons_of_mem n hm, hmc⟩

/-- Claim C7 (amended): each post id occurs at most once in the extracted
list; the post kept for an id is the normalization of the first node
bearing that id whose normalization succeeds — nodes dropped by
`cleanNode` (e.g. for a missing `code`) do not mark their id as seen, so
only occurrences after a successfully kept one are skipped; and every
extracted post comes from some captured node. -/
theorem dedup_each_id_at_most_once (username : String)
    (rs : List InstagramGraphQLResponse) :
    (((processNodes username (flattenNodes rs) []).map fun p => p.id).Nodup) ∧
    (∀ l1 n l2 p, flattenNodes rs = l1 ++ n :: l2 → n.id ≠ "" →
      cleanNode n username = some p →
      (∀ m ∈ l1, m.id = n.id → cleanNode m username = none) →
      p ∈ processNodes username (flattenNodes rs) []) ∧
    (∀ p ∈ processNodes username (flattenNodes rs) [],
      ∃ n ∈ flattenNodes rs, cleanNode n username = some p) := by
  refine ⟨(processNodes_ids_nodup username (flattenNodes rs) []).1, ?_, ?_⟩
  · intro l1 n l2 p hsplit hne hclean hfirst
    rw [hsplit]
    exact processNodes_keeps_first_valid username n l2 p l1 []
      (List.not_mem_nil n.id) hne hclean hfirst
  · exact processNodes_sources username (flattenNodes rs) []

/-- Claim C7 counterexample: two nodes share id `x`; the first occurrence
is dropped by normalization (missing `code`) without marking the id as
seen, so the later occurrence is kept — against the claim that the first
occurrence in flattening order is kept and later occurrences skipped. -/
theorem dedup_keeps_later_occurrence :
    nodeMissingCode.id = nodeDuplicateId.id ∧
    cleanNode nodeMissingCode "user" = none ∧
    (processNodes "user" [nodeMissingCode, nodeDuplicateId] []).map
        (fun p => p.shortcode) = ["c2"] := by
  refine ⟨rfl, rfl, ?_⟩
  decide

/-- Claim C7 witness: instantiation of `dedup_each_id_at_most_once` on a
payload with an internal duplicate: the duplicated id survives once and
the kept post is the first valid occurrence. -/
theorem dedup_each_id_at_most_once_witness :
    (((processNodes "user" (flattenNodes []) []).map fun p => p.id).Nodup) ∧
    (∀ l1 n l2 p, flattenNodes [] = l1 ++ n :: l2 → n.id ≠ "" →
      cleanNode n "user" = some p →
      (∀ m ∈ l1, m.id = n.id → cleanNode m "user" = none) →
      p ∈ processNodes "user" (flattenNodes []) []) ∧
    (∀ p ∈ processNodes "user" (flattenNodes []) [],
      ∃ n ∈ flattenNodes [], cleanNode n "user" = some p) :=
  dedup_each_id_at_most_once "user" []

/-- Claim C3: the extraction output is sorted by `createdAt` descending,
the sort is applied before truncation (its length is the minimum of the
limit and the deduplicated count), and the returned posts dominate every
dropped post in `createdAt` — so the limit keeps the newest posts, not
the first ones in scroll-arrival order. -/
theorem extraction_sorted_before_truncation (rs : List InstagramGraphQLResponse)
    (username : String) (limit : Nat) :
    List.Pairwise (fun a b : CleanedInstagramPost => b.createdAt ≤ a.createdAt)
      (extractPosts rs username limit).1 ∧
    (extractPosts rs username limit).1.length =
      min limit (processNodes username (flattenNodes rs) []).length ∧
    ∃ rest,
      ((extractPosts rs username limit).1 ++ rest).Perm
        (processNodes username (flattenNodes rs) []) ∧
      ∀ x ∈ (extractPosts rs username limit).1, ∀ y ∈ rest,
        y.createdAt ≤ x.createdAt := by
  have hperm : (sortPostsDesc (processNodes username (flattenNodes rs) [])).Perm
      (processNodes username (flattenNodes rs) []) :=
    List.mergeSort_perm _ _
  have hsorted : List.Pairwise
      (fun a b : CleanedInstagramPost => b.createdAt ≤ a.createdAt)
      (sortPostsDesc (processNodes username (flattenNodes rs) [])) := by
    have h := @List.sorted_mergeSort CleanedInstagramPost
      (fun a b : CleanedInstagramPost => decide (b.createdAt ≤ a.createdAt))
      (fun a b c hab hbc => by
        simp only [decide_eq_true_eq] at hab hbc ⊢
        exact le_trans hbc hab)
      (fun a b => by
        simp only [Bool.or_eq_true, decide_eq_true_eq]
        exact Nat.le_total b.createdAt a.createdAt)
      (processNodes username (flattenNodes rs) [])
    exact h.imp fun hab => of_decide_eq_true hab
  have hout : (extractPosts rs username limit).1 =
      (sortPostsDesc (processNodes username (flattenNodes rs) [])).take limit := rfl
  refine ⟨?_, ?_, ?_⟩
  · rw [hout]
    exact hsorted.sublist (List.take_sublist limit _)
  · rw [hout, List.length_take, hperm.length_eq]
  · refine ⟨(sortPostsDesc (processNodes username (flattenNodes rs) [])).drop limit,
      ?_, ?_⟩
    · rw [hout, List.take_append_drop]
      exact hperm
    · rw [hout]
      have hsplit := List.take_append_drop limit
        (sortPostsDesc (processNodes username (flattenNodes rs) []))
      rw [← hsplit] at hsorted
      intro x hx y hy
      exact (List.pairwise_append.mp hsorted).2.2 x hx y hy

/-- Claim C3 witness: instantiation of `extraction_sorted_before_truncation`
at the empty capture list. -/
theorem extraction_sorted_before_truncation_witness :
    List.Pairwise (fun a b : CleanedInstagramPost => b.createdAt ≤ a.createdAt)
      (extractPosts [] "user" 3).1 ∧
    (extractPosts [] "user" 3).1.length =
      min 3 (processNodes "user" (flattenNodes []) []).length ∧
    ∃ rest,
      ((extractPosts [] "user" 3).1 ++ rest).Perm
        (processNodes "user" (flattenNodes []) []) ∧
      ∀ x ∈ (extractPosts [] "user" 3).1, ∀ y ∈ rest,
        y.createdAt ≤ x.createdAt :=
  extraction_sorted_before_truncation [] "user" 3

/-- Claim C6 (amended): the observer retains a payload if and only if the
response URL contains `graphql/query`, the body parses, and the timeline
edge-list field is present — the edge list may be empty; a body that
fails to parse is silently dropped. -/
theorem responseHandler_retained_iff (r : NetResponse)
    (d : InstagramGraphQLResponse) :
    (responseHandler r = some d ↔
      strIncludes r.url "graphql/query" = true ∧ r.json = some d ∧
        (timelineEdges? d).isSome = true) ∧
    (r.json = none → responseHandler r = none) := by
  constructor
  · by_cases hurl : strIncludes r.url "graphql/query" = true
    · cases hjson : r.json with
      | none =>
        simp only [responseHandler, if_pos hurl, hjson]
        constructor
        · intro h
          cases h
        · intro ⟨_, h, _⟩
          cases h
      | some data =>
        simp only [responseHandler, if_pos hurl, hjson]
        cases hedges : timelineEdges? data with
        | none =>
          constructor
          · intro h
            cases h
          · intro ⟨_, hd, hs⟩
            cases hd
            rw [hedges] at hs
            cases hs
        | some es =>
          constructor
          · intro h
            cases h
            exact ⟨hurl, rfl, by rw [hedges]; rfl⟩
          · intro ⟨_, hd, _⟩
            cases hd
            rfl
    · simp only [responseHandler, if_neg hurl]
      constructor
      · intro h
        cases h
      · intro ⟨h, _, _⟩
        exact absurd h hurl
  · intro hjson
    simp only [responseHandler, hjson]
    split <;> rfl

/-- Claim C6 counterexample: a response whose timeline edge list is
present but empty is retained by the observer, against the claim that
only payloads with a non-empty edge list are retained. -/
theorem empty_edge_list_payload_retained :
    timelineEdges? emptyTimelineResponse = some [] ∧
    capturedResponses
        [{ url := "https://www.instagram.com/graphql/query",
           json := some emptyTimelineResponse }] =
      [emptyTimelineResponse] := by
  refine ⟨rfl, ?_⟩
  decide

/-- Claim C6 witness: instantiation of `responseHandler_retained_iff` at a
response whose body failed to parse: it is dropped. -/
theorem responseHandler_retained_iff_witness :
    responseHandler
        { url := "https://www.instagram.com/graphql/query", json := none } =
      none :=
  (responseHandler_retained_iff
      { url := "https://www.instagram.com/graphql/query", json := none }
      emptyTimelineResponse).2 rfl

theorem scrollLoop_succ (counts : Nat → Nat) (limit i last noNew fuel : Nat) :
    scrollLoop counts limit i last noNew (fuel + 1) =
      (if counts i ≥ limit then some (ScrollExit.limitReached, i)
       else if counts i = last then
         if noNew + 1 ≥ STALE_SCROLL_THRESHOLD then some (ScrollExit.endOfFeed, i)
         else scrollLoop counts limit (i + 1) (counts i) (noNew + 1) fuel
       else scrollLoop counts limit (i + 1) (counts i) 0 fuel) := rfl

theorem capturedEdgeCount_foldl_le (t : List InstagramGraphQLResponse) :
    ∀ a : Nat,
      a ≤ t.foldl (fun sum r => sum + ((timelineEdges? r).map List.length).getD 0) a := by
  induction t with
  | nil => intro a; exact le_refl a
  | cons r rest ih =>
    intro a
    rw [List.foldl_cons]
    exact le_trans (Nat.le_add_right a _) (ih _)

theorem capturedEdgeCount_prefix_le (rs t : List InstagramGraphQLResponse) :
    capturedEdgeCount rs ≤ capturedEdgeCount (rs ++ t) := by
  rw [capturedEdgeCount, capturedEdgeCount, List.foldl_append]
  exact capturedEdgeCount_foldl_le t _

theorem scrollLoop_fuel_sufficient (counts : Nat → Nat) (limit : Nat)
    (mono : ∀ j, counts j ≤ counts (j + 1)) :
    ∀ fuel i last noNew, last ≤ counts i → noNew ≤ 4 →
      6 * (limit - last) + (5 - noNew) ≤ fuel →
      (scrollLoop counts limit i last noNew fuel).isSome = true := by
  intro fuel
  induction fuel with
  | zero =>
    intro i last noNew _ hnoNew hfuel
    omega
  | succ f ih =>
    intro i last noNew hlast hnoNew hfuel
    rw [scrollLoop_succ]
    by_cases hlim : counts i ≥ limit
    · rw [if_pos hlim]
      rfl
    · rw [if_neg hlim]
      by_cases hstale : counts i = last
      · rw [if_pos hstale]
        by_cases hthr : noNew + 1 ≥ STALE_SCROLL_THRESHOLD
        · rw [if_pos hthr]
          rfl
        · rw [if_neg hthr]
          have hthr' : noNew + 1 ≤ 4 := by
            simp only [STALE_SCROLL_THRESHOLD] at hthr
            omega
          refine ih (i + 1) (counts i) (noNew + 1) (mono i) hthr' ?_
          rw [hstale]
          omega
      · rw [if_neg hstale]
        have hlt : last < counts i := lt_of_le_of_ne hlast (fun h => hstale h.symm)
        refine ih (i + 1) (counts i) 0 (mono i) (by omega) ?_
        have hci : counts i < limit := lt_of_not_ge hlim
        omega

theorem scrollLoop_limitReached_first (counts : Nat → Nat) (limit : Nat) :
    ∀ fuel i last noNew k,
      scrollLoop counts limit i last noNew fuel = some (ScrollExit.limitReached, k) →
      counts k ≥ limit ∧ i ≤ k ∧ ∀ j, i ≤ j → j < k → counts j < limit := by
  intro fuel
  induction fuel with
  | zero =>
    intro i last noNew k h
    cases h
  | succ f ih =>
    intro i last noNew k h
    rw [scrollLoop_succ] at h
    by_cases hlim : counts i ≥ limit
    · rw [if_pos hlim] at h
      cases h
      exact ⟨hlim, le_refl _, fun j hij hjk => absurd (lt_of_le_of_lt hij hjk) (lt_irrefl _)⟩
    · rw [if_neg hlim] at h
      have hci : counts i < limit := lt_of_not_ge hlim
      by_cases hstale : counts i = last
      · rw [if_pos hstale] at h
        by_cases hthr : noNew + 1 ≥ STALE_SCROLL_THRESHOLD
        · rw [if_pos hthr] at h
          cases h
        · rw [if_neg hthr] at h
          obtain ⟨hk, hik, hbefore⟩ := ih (i + 1) (counts i) (noNew + 1) k h
          refine ⟨hk, le_trans (Nat.le_succ i) hik, fun j hij hjk => ?_⟩
          rcases Nat.eq_or_lt_of_le hij with hij | hij
          · rw [← hij]; exact hci
          · exact hbefore j hij hjk
      · rw [if_neg hstale] at h
        obtain ⟨hk, hik, hbefore⟩ := ih (i + 1) (counts i) 0 k h
        refine ⟨hk, le_trans (Nat.le_succ i) hik, fun j hij hjk => ?_⟩
        rcases Nat.eq_or_lt_of_le hij with hij | hij
        · rw [← hij]; exact hci
        · exact hbefore j hij hjk

theorem scrollLoop_endOfFeed_stale (counts : Nat → Nat) (limit : Nat) :
    ∀ fuel i last noNew k,
      (∀ t, t < noNew → counts (i - 1 - t) = last) → noNew ≤ 4 →
      scrollLoop counts limit i last noNew fuel = some (ScrollExit.endOfFeed, k) →
      counts k < limit ∧ i + (4 - noNew) ≤ k ∧
        ∀ j, k - 4 ≤ j → j ≤ k → counts j = counts k := by
  intro fuel
  induction fuel with
  | zero =>
    intro i last noNew k _ _ h
    cases h
  | succ f ih =>
    intro i last noNew k hist hnoNew h
    rw [scrollLoop_succ] at h
    by_cases hlim : counts i ≥ limit
    · rw [if_pos hlim] at h
      cases h
    · rw [if_neg hlim] at h
      have hci : counts i < limit := lt_of_not_ge hlim
      by_cases hstale : counts i = last
      · rw [if_pos hstale] at h
        by_cases hthr : noNew + 1 ≥ STALE_SCROLL_THRESHOLD
        · rw [if_pos hthr] at h
          cases h
          have hnn : noNew = 4 := by
            simp only [STALE_SCROLL_THRESHOLD] at hthr
            omega
          refine ⟨hci, by omega, fun j hj4 hjk => ?_⟩
          rcases Nat.eq_or_lt_of_le hjk with hjk | hjk
          · rw [hjk]
          · have ht : i - 1 - (i - 1 - j) = j := by omega
            have hjlast := hist (i - 1 - j) (by omega)
            rw [ht] at hjlast
            rw [hjlast, hstale]
        · rw [if_neg hthr] at h
          have hthr' : noNew + 1 ≤ 4 := by
            simp only [STALE_SCROLL_THRESHOLD] at hthr
            omega
          have hist' : ∀ t, t < noNew + 1 → counts (i + 1 - 1 - t) = counts i := by
            intro t ht
            cases t with
            | zero => simp
            | succ s =>
              have hs : s < noNew := by omega
              have := hist s hs
              rw [hstale]
              have hidx : i + 1 - 1 - (s + 1) = i - 1 - s := by omega
              rw [hidx, this]
          obtain ⟨hk, hik, hconst⟩ := ih (i + 1) (counts i) (noNew + 1) k hist' hthr' h
          exact ⟨hk, by omega, hconst⟩
      · rw [if_neg hstale] at h
        have hist' : ∀ t, t < 0 → counts (i + 1 - 1 - t) = counts i := by
          intro t ht
          omega
        obtain ⟨hk, hik, hconst⟩ := ih (i + 1) (counts i) 0 k hist' (by omega) h
        exact ⟨hk, by omega, hconst⟩

/-- Claim C5: over any append-only sequence of captured payloads, the
progressive scroll loop terminates within fuel `6·limit + 6`; a
`limitReached` exit happens at the first iteration whose summed
captured-edge count reaches the limit; an `endOfFeed` exit happens only
below the limit after 5 consecutive iterations (the exit one and the 4
before it) in which the count did not increase; and whenever the count
changed, the loop continues with the stale counter reset to 0. -/
theorem scroll_loop_terminates (payloads : Nat → List InstagramGraphQLResponse)
    (happend : ∀ j, ∃ t, payloads (j + 1) = payloads j ++ t) (limit : Nat) :
    ∃ e k, scrollLoop (fun i => capturedEdgeCount (payloads i)) limit 0 0 0
        (6 * limit + 6) = some (e, k) ∧
      (e = ScrollExit.limitReached →
        capturedEdgeCount (payloads k) ≥ limit ∧
          ∀ j, j < k → capturedEdgeCount (payloads j) < limit) ∧
      (e = ScrollExit.endOfFeed →
        capturedEdgeCount (payloads k) < limit ∧ 4 ≤ k ∧
          ∀ j, k - 4 ≤ j → j ≤ k →
            capturedEdgeCount (payloads j) = capturedEdgeCount (payloads k)) ∧
      (∀ i last noNew f, capturedEdgeCount (payloads i) < limit →
        capturedEdgeCount (payloads i) ≠ last →
        scrollLoop (fun n => capturedEdgeCount (payloads n)) limit i last noNew (f + 1) =
          scrollLoop (fun n => capturedEdgeCount (payloads n)) limit (i + 1)
            (capturedEdgeCount (payloads i)) 0 f) := by
  have mono : ∀ j, capturedEdgeCount (payloads j) ≤ capturedEdgeCount (payloads (j + 1)) := by
    intro j
    obtain ⟨t, ht⟩ := happend j
    rw [ht]
    exact capturedEdgeCount_prefix_le (payloads j) t
  have hsome := scrollLoop_fuel_sufficient (fun i => capturedEdgeCount (payloads i))
    limit mono (6 * limit + 6) 0 0 0 (Nat.zero_le _) (by omega) (by omega)
  obtain ⟨⟨e, k⟩, hek⟩ := Option.isSome_iff_exists.mp hsome
  refine ⟨e, k, hek, ?_, ?_, ?_⟩
  · intro he
    rw [he] at hek
    obtain ⟨hk, _, hbefore⟩ := scrollLoop_limitReached_first
      (fun i => capturedEdgeCount (payloads i)) limit (6 * limit + 6) 0 0 0 k hek
    exact ⟨hk, fun j hj => hbefore j (Nat.zero_le j) hj⟩
  · intro he
    rw [he] at hek
    obtain ⟨hk, hik, hconst⟩ := scrollLoop_endOfFeed_stale
      (fun i => capturedEdgeCount (payloads i)) limit (6 * limit + 6) 0 0 0 k
      (fun t ht => absurd ht (Nat.not_lt_zero t)) (by omega) hek
    exact ⟨hk, by omega, hconst⟩
  · intro i last noNew f hlt hne
    rw [scrollLoop_succ, if_neg (not_le.mpr hlt), if_neg hne]

/-- Claim C5 witness: instantiation of `scroll_loop_terminates` for a
capture sequence that never grows: the loop exits `endOfFeed` within the
fuel bound. -/
theorem scroll_loop_terminates_witness :
    ∃ e k, scrollLoop (fun i => capturedEdgeCount ((fun _ => []) i)) 3 0 0 0
        (6 * 3 + 6) = some (e, k) ∧
      (e = ScrollExit.limitReached →
        capturedEdgeCount [] ≥ 3 ∧
          ∀ j, j < k → capturedEdgeCount ((fun _ => ([] : List InstagramGraphQLResponse)) j) < 3) ∧
      (e = ScrollExit.endOfFeed →
        capturedEdgeCount [] < 3 ∧ 4 ≤ k ∧
          ∀ j, k - 4 ≤ j → j ≤ k →
            capturedEdgeCount ((fun _ => ([] : List InstagramGraphQLResponse)) j) =
              capturedEdgeCount []) ∧
      (∀ i last noNew f, capturedEdgeCount ([] : List InstagramGraphQLResponse) < 3 →
        capturedEdgeCount ([] : List InstagramGraphQLResponse) ≠ last →
        scrollLoop (fun _ => capturedEdgeCount ([] : List InstagramGraphQLResponse)) 3 i last noNew (f + 1) =
          scrollLoop (fun _ => capturedEdgeCount ([] : List InstagramGraphQLResponse)) 3 (i + 1)
            (capturedEdgeCount ([] : List InstagramGraphQLResponse)) 0 f) :=
  scroll_loop_terminates (fun _ => []) (fun _ => ⟨[], rfl⟩) 3

theorem scrapeProfileLoop_succ (accounts : List IgAccount) (envOf : String → PageEnv)
    (targetUsername : String) (maxPosts? : Option Nat) (maxPostsPerRequest : Nat)
    (createdAt? : Option Nat) (now fuel : Nat) (failedUsernames : List String)
    (state : RotationState) :
    scrapeProfileLoop accounts envOf targetUsername maxPosts? maxPostsPerRequest
        createdAt? now (fuel + 1) failedUsernames state =
      (match getLeastUsedAccount accounts state failedUsernames now with
       | (none, _, _) => Except.error "Scraping failed: all accounts exhausted"
       | (some account, state1, _) =>
         match executeScrape state1 (envOf account.username) account targetUsername
             maxPosts? maxPostsPerRequest createdAt? now with
         | (Except.ok outcome, state2) => Except.ok (outcome, state2)
         | (Except.error e, state2) =>
           scrapeProfileLoop accounts envOf targetUsername maxPosts? maxPostsPerRequest
             createdAt? now fuel (failedUsernames ++ [account.username])
             (updateAccountStatus state2 account.username false (some e) now).1) := rfl

/-- Claim C1 counterexample: the outcome returned when the private-account
marker is detected has `success = false` — it is not a successful
outcome, although it is returned (not thrown) with empty posts and
the `Account is private` error. -/
theorem private_outcome_not_successful :
    (executeScrape initialRotationState privatePageEnv ⟨"bot1", "pw"⟩ "target"
        none 50 none 99).1 =
      Except.ok
        { success := false, username := "target", posts := [],
          postsCount := none, graphqlCaptured := none, scrapedWith := "bot1",
          scrapedAt := 99, error := some "Account is private" } := rfl

/-- Claim C1 (amended): when the private-account marker is detected (and
neither the login wall nor a blocked title fired), the attempt
short-circuits and the single-target scrape returns — without throwing,
without recording any account-health change, and without retrying with
another account — an outcome with empty posts, the `Account is private`
error and `success = false`; only the usage counter of the selected
account is bumped by the selection itself. -/
theorem private_profile_short_circuits (accounts : List IgAccount)
    (envOf : String → PageEnv) (state0 : RotationState) (target : String)
    (maxPosts? : Option Nat) (mppr : Nat) (createdAt? : Option Nat) (now : Nat)
    (hne : accounts ≠ [])
    (henv : ∀ u, (envOf u).needsLogin = false ∧ titleBlocked (envOf u).title = false ∧
      (envOf u).isPrivate = true) :
    ∃ a st, a ∈ accounts ∧
      scrapeProfile accounts envOf target maxPosts? mppr createdAt? now state0 =
        Except.ok
          ({ success := false, username := target, posts := [], postsCount := none,
             graphqlCaptured := none, scrapedWith := a.username, scrapedAt := now,
             error := some "Account is private" }, st) ∧
      st.accountStatus = state0.accountStatus ∧
      lookupD st.usageCount a.username 0 = lookupD state0.usageCount a.username 0 + 1 ∧
      ∀ u, u ≠ a.username → lookupD st.usageCount u 0 = lookupD state0.usageCount u 0 := by
  have hpick : ∃ a, pickMin state0.usageCount [] accounts = some a := by
    cases hp : pickMin state0.usageCount [] accounts with
    | none =>
      have := (pickMin_eq_none_iff state0.usageCount [] accounts).mp hp
      cases haccs : accounts with
      | nil => exact absurd haccs hne
      | cons x rest =>
        have hx := this x (by rw [haccs]; exact List.mem_cons_self x rest)
        simp [List.contains] at hx
    | some a => exact ⟨a, rfl⟩
  obtain ⟨a, hp⟩ := hpick
  have hmem : a ∈ accounts := by
    obtain ⟨l1, l2, hsplit, _, _, _⟩ := pickMin_spec state0.usageCount [] accounts a hp
    rw [hsplit]
    exact List.mem_append.mpr (Or.inr (List.mem_cons_self a l2))
  obtain ⟨f, hf⟩ : ∃ f, accounts.length = f + 1 := by
    cases haccs : accounts with
    | nil => exact absurd haccs hne
    | cons x rest => exact ⟨rest.length, rfl⟩
  set st1 : RotationState :=
    { state0 with
        lastUsedTimestamps := setK state0.lastUsedTimestamps a.username now,
        usageCount :=
          setK state0.usageCount a.username
            (lookupD state0.usageCount a.username 0 + 1) } with hst1
  have hglu : getLeastUsedAccount accounts state0 [] now = (some a, st1, [st1]) := by
    simp only [getLeastUsedAccount, if_neg hne, leastUsedStep_foldl, hp, hst1]
  obtain ⟨h1, h2, h3⟩ := henv a.username
  have hexec : executeScrape st1 (envOf a.username) a target maxPosts? mppr
      createdAt? now =
      (Except.ok
        { success := false, username := target, posts := [], postsCount := none,
          graphqlCaptured := none, scrapedWith := a.username, scrapedAt := now,
          error := some "Account is private" }, st1) := by
    simp only [executeScrape, h1, h2, h3, Bool.false_eq_true, if_false, if_true]
  refine ⟨a, st1, hmem, ?_, ?_, ?_, ?_⟩
  · rw [scrapeProfile, hf, scrapeProfileLoop_succ, hglu]
    simp only [hexec]
  · rw [hst1]
  · rw [hst1]
    exact lookupD_setK_self _ _ _ _
  · intro u hu
    rw [hst1]
    exact lookupD_setK_ne _ _ _ _ _ hu

/-- Claim C1 witness: instantiation of `private_profile_short_circuits`
with one configured account and a private target profile. -/
theorem private_profile_short_circuits_witness :
    ∃ a st, a ∈ [(⟨"bot1", "pw"⟩ : IgAccount)] ∧
      scrapeProfile [⟨"bot1", "pw"⟩] (fun _ => privatePageEnv) "target"
          none 50 none 99 initialRotationState =
        Except.ok
          ({ success := false, username := "target", posts := [], postsCount := none,
             graphqlCaptured := none, scrapedWith := a.username, scrapedAt := 99,
             error := some "Account is private" }, st) ∧
      st.accountStatus = initialRotationState.accountStatus ∧
      lookupD st.usageCount a.username 0 =
        lookupD initialRotationState.usageCount a.username 0 + 1 ∧
      ∀ u, u ≠ a.username →
        lookupD st.usageCount u 0 = lookupD initialRotationState.usageCount u 0 :=
  private_profile_short_circuits [⟨"bot1", "pw"⟩] (fun _ => privatePageEnv)
    initialRotationState "target" none 50 none 99 (by decide)
    (fun _ => ⟨rfl, rfl, rfl⟩)

theorem poolStep_preserves {n : Nat} (s s' : PoolState n) (e : PoolEvent n)
    (hinv : PoolInv s) (h : poolStep s e = some s') : PoolInv s' := by
  cases e with
  | start c =>
    rw [poolStep] at h
    by_cases hp : s.callers c ≠ CallerPhase.pending
    · rw [if_pos hp] at h
      cases h
    · rw [if_neg hp] at h
      rcases hinv with ⟨h0, hlive, hlaunch, hcallers⟩ |
        ⟨h1, hlaunch, hlive, hcallers⟩ | ⟨h1, hlaunch, hlive, hcallers⟩
      · rw [hlive, hlaunch] at h
        cases h
        refine Or.inr (Or.inl ⟨?_, ?_, rfl, fun d => ?_⟩)
        · show s.launchCount + 1 = 1
          omega
        · show some s.launchCount = some 0
          rw [h0]
        · show Function.update s.callers c (CallerPhase.awaitingLaunch s.launchCount) d =
              CallerPhase.pending ∨
            Function.update s.callers c (CallerPhase.awaitingLaunch s.launchCount) d =
              CallerPhase.awaitingLaunch 0
          by_cases hdc : d = c
          · subst hdc
            right
            rw [Function.update_same, h0]
          · left
            rw [Function.update_noteq hdc]
            exact hcallers d
      · rw [hlive, hlaunch] at h
        cases h
        refine Or.inr (Or.inl ⟨h1, rfl, rfl, fun d => ?_⟩)
        show Function.update s.callers c (CallerPhase.awaitingLaunch 0) d =
            CallerPhase.pending ∨
          Function.update s.callers c (CallerPhase.awaitingLaunch 0) d =
            CallerPhase.awaitingLaunch 0
        by_cases hdc : d = c
        · subst hdc
          right
          rw [Function.update_same]
        · rw [Function.update_noteq hdc]
          exact hcallers d
      · rw [hlive] at h
        cases h
        refine Or.inr (Or.inr ⟨h1, hlaunch, rfl, fun d => ?_⟩)
        show Function.update s.callers c (CallerPhase.done 0) d =
            CallerPhase.pending ∨
          Function.update s.callers c (CallerPhase.done 0) d = CallerPhase.done 0
        by_cases hdc : d = c
        · subst hdc
          right
          rw [Function.update_same]
        · rw [Function.update_noteq hdc]
          exact hcallers d
  | complete l =>
    rw [poolStep] at h
    by_cases hl : s.launching = some l
    · rw [if_pos hl] at h
      cases h
      rcases hinv with ⟨h0, hlive, hlaunch, hcallers⟩ |
        ⟨h1, hlaunch, hlive, hcallers⟩ | ⟨h1, hlaunch, hlive, hcallers⟩
      · rw [hlaunch] at hl
        cases hl
      · have hl0 : l = 0 := by
          rw [hlaunch] at hl
          exact (Option.some_injective _ hl).symm
        subst hl0
        refine Or.inr (Or.inr ⟨h1, rfl, rfl, fun d => ?_⟩)
        show (if s.callers d = CallerPhase.awaitingLaunch 0 then CallerPhase.done 0
            else s.callers d) = CallerPhase.pending ∨
          (if s.callers d = CallerPhase.awaitingLaunch 0 then CallerPhase.done 0
            else s.callers d) = CallerPhase.done 0
        rcases hcallers d with hd | hd
        · left
          rw [hd]
          decide
        · right
          rw [hd]
          decide
      · rw [hlaunch] at hl
        cases hl
    · rw [if_neg hl] at h
      cases h

theorem runPool_none_absorbs {n : Nat} (events : List (PoolEvent n)) :
    events.foldl (fun s? e => s?.bind fun s => poolStep s e) none = none := by
  induction events with
  | nil => rfl
  | cons e rest ih =>
    rw [List.foldl_cons]
    exact ih

theorem runPool_fold_inv {n : Nat} (events : List (PoolEvent n)) :
    ∀ s : PoolState n, PoolInv s →
      ∀ s', events.foldl (fun s? e => s?.bind fun t => poolStep t e) (some s) = some s' →
        PoolInv s' := by
  induction events with
  | nil =>
    intro s hinv s' h
    cases h
    exact hinv
  | cons e rest ih =>
    intro s hinv s' h
    rw [List.foldl_cons] at h
    cases hstep : poolStep s e with
    | none =>
      rw [Option.some_bind, hstep] at h
      rw [runPool_none_absorbs] at h
      cases h
    | some t =>
      rw [Option.some_bind, hstep] at h
      exact ih t (poolStep_preserves s t e hinv hstep) s' h

/-- Claim C9: for any number of concurrent `getBrowserForSession` callers
for one key starting with no live session, and any schedule of their
atomic sections, at most one browser launch is ever performed; every
caller that finishes holds the instance of launch 0 (all callers get the
same live session, and then exactly one launch has happened); and a
caller that starts while a launch is in flight awaits that launch
instead of registering a duplicate. -/
theorem single_launch_same_session (n : Nat) (events : List (PoolEvent n))
    (s' : PoolState n) (h : runPool n events = some s') :
    s'.launchCount ≤ 1 ∧
    (∀ c i, s'.callers c = CallerPhase.done i →
      i = 0 ∧ s'.live = some 0 ∧ s'.launchCount = 1) ∧
    (∀ (s : PoolState n) (c : Fin n) (l : Nat),
      s.callers c = CallerPhase.pending → s.live = none → s.launching = some l →
      poolStep s (PoolEvent.start c) =
        some { s with
            callers := Function.update s.callers c (CallerPhase.awaitingLaunch l) }) := by
  have hinv : PoolInv s' := by
    refine runPool_fold_inv events (initialPoolState n) ?_ s' h
    exact Or.inl ⟨rfl, rfl, rfl, fun _ => rfl⟩
  refine ⟨?_, ?_, ?_⟩
  · rcases hinv with ⟨h0, _⟩ | ⟨h1, _⟩ | ⟨h1, _⟩
    · rw [h0]
      omega
    · rw [h1]
    · rw [h1]
  · intro c i hdone
    rcases hinv with ⟨_, _, _, hcallers⟩ | ⟨_, _, _, hcallers⟩ | ⟨h1, hlaunch, hlive, hcallers⟩
    · rw [hcallers c] at hdone
      cases hdone
    · rcases hcallers c with hc | hc <;> rw [hc] at hdone <;> cases hdone
    · rcases hcallers c with hc | hc
      · rw [hc] at hdone
        cases hdone
      · rw [hc] at hdone
        cases hdone
        exact ⟨rfl, hlive, h1⟩
  · intro s c l hpend hlive hlaunch
    rw [poolStep, if_neg (by rw [hpend]; exact fun hne => hne rfl), hlive, hlaunch]

/-- Claim C9 witness: two concurrent callers, the second starting while
the launch of the first is in flight; after the launch resolves both callers
hold the same instance and exactly one launch happened. -/
theorem single_launch_same_session_witness :
    ∃ s', runPool 2 [PoolEvent.start 0, PoolEvent.start 1, PoolEvent.complete 0] =
        some s' ∧
      s'.launchCount ≤ 1 ∧
      (∀ c i, s'.callers c = CallerPhase.done i →
        i = 0 ∧ s'.live = some 0 ∧ s'.launchCount = 1) ∧
      s'.callers 0 = CallerPhase.done 0 ∧ s'.callers 1 = CallerPhase.done 0 ∧
      s'.launchCount = 1 :=
  ⟨_, rfl,
    (single_launch_same_session 2
      [PoolEvent.start 0, PoolEvent.start 1, PoolEvent.complete 0] _ rfl).1,
    (single_launch_same_session 2
      [PoolEvent.start 0, PoolEvent.start 1, PoolEvent.complete 0] _ rfl).2.1,
    rfl, rfl, rfl⟩

end IGScraper
